import Mathlib

/-!
Shallow embedding of the schedule-task-mcp repository (TypeScript sources:
the scheduler, the SQLite-backed task storage, and the tool-level trigger
validators) together with theorems settling the frozen claims.

Modelling conventions:
* Absolute instants (JS `Date` values, ISO strings in the code) are integers
  counting milliseconds since the epoch.  Converting a string to a `Date`
  and back to ISO preserves the instant, so a single integer suffices.
* JS numbers are embedded as rationals; IEEE rounding is out of scope.
  `new Date(x)` clips a fractional time value by truncation toward zero,
  embedded by `jsTrunc`.
* Optional fields are `Option` values; a missing or `undefined` field is
  `none`.  JS truthiness on strings (empty string is falsy) is `jsTruthy`.
* The cron-expression engine is an external collaborator; the scheduler
  only calls it through one entry point, embedded as an explicit function
  parameter `cronNext : String → Int → Option Int` (returning `none` when
  the parser throws, as the code catches the exception and returns
  `undefined`).
* Effects of the sampling round trip are captured by `SamplingOutcome`,
  the observable behaviour of the peer during a fire.
-/

/-- Lifecycle status of a task (`TaskStatus` in storage.ts). -/
inductive TaskStatus where
  | scheduled
  | running
  | paused
  | completed
  | error
deriving DecidableEq, Repr

/-- Status stored in `last_status` (success, error or running). -/
inductive LastStatus where
  | success
  | error
  | running
deriving DecidableEq, Repr

/-- Status of one history entry (success or error). -/
inductive HistStatus where
  | success
  | error
deriving DecidableEq, Repr

/-- Trigger family of a task. -/
inductive TriggerType where
  | interval
  | cron
  | date
deriving DecidableEq, Repr

/-- One run-history entry (`TaskHistoryEntry` in storage.ts). -/
structure HistoryEntry where
  run_at : Int
  status : HistStatus
  message : Option String
deriving DecidableEq, Repr

/-- Trigger configuration.  In the code this is an untyped record cast per
trigger type; the three shapes produced by validation are a sum.  The four
interval fields are JS numbers, each possibly absent. -/
inductive TriggerConfig where
  | interval (seconds minutes hours days : Option ℚ)
  | cron (expression : String)
  | date (run_date : Int)
deriving DecidableEq, Repr

/-- Task record (`TaskRecord` in storage.ts; `name` is carried by the
scheduler and used in execution messages). -/
structure TaskRecord where
  id : String
  name : String
  trigger_type : TriggerType
  trigger_config : TriggerConfig
  mcp_server : Option String
  mcp_tool : Option String
  mcp_arguments : Option String
  agent_prompt : Option String
  enabled : Bool
  status : TaskStatus
  created_at : Int
  updated_at : Option Int
  last_run : Option Int
  last_status : Option LastStatus
  last_message : Option String
  next_run : Option Int
  history : Option (List HistoryEntry)
deriving DecidableEq, Repr

/-- Truncation toward zero: how a JS `Date` clips a fractional time value. -/
def jsTrunc (q : ℚ) : Int :=
  if 0 ≤ q then Rat.floor q else Rat.ceil q

/-- JS `Math.round`: floor of the value plus one half. -/
def jsRound (q : ℚ) : Int :=
  Rat.floor (q + 1 / 2)

/-- JS truthiness of an optional string: present and non-empty. -/
def jsTruthy (o : Option String) : Bool :=
  match o with
  | some s => s ≠ ""
  | none => false

/-- HISTORY_LIMIT constant of scheduler.ts. -/
def historyLimit : Nat := 10

/-- External cron collaborator: maps an expression and a reference instant
to the next occurrence, or `none` when the expression cannot be handled
(the code catches the parser exception and yields `undefined`). -/
abbrev CronNext : Type := String → Int → Option Int

/-- TaskScheduler.computeIntervalMs: total interval duration in
milliseconds.  The JS code reads the four fields off the untyped config
(absent fields contribute nothing; a field holding 0 is falsy and also
contributes nothing, which coincides with adding 0). -/
def computeIntervalMs (cfg : TriggerConfig) : ℚ :=
  match cfg with
  | .interval s m h d =>
      s.getD 0 * 1000 + m.getD 0 * (60 * 1000) +
        h.getD 0 * (60 * 60 * 1000) + d.getD 0 * (24 * 60 * 60 * 1000)
  | _ => 0

/-- TaskScheduler.computeNextRun.  Disabled or completed tasks keep their
stored `next_run`.  Interval and cron triggers preserve a stored future
`next_run`; interval otherwise adds the interval duration to the reference
instant (`none` when the duration is not positive), cron consults the
external parser.  Date triggers return the configured instant when it is
still in the future.  A date task whose config is not a date shape would
raise in JS when serialising the invalid date; this point is unreachable
for validated tasks and is embedded as `none`. -/
def computeNextRun (cronNext : CronNext) (task : TaskRecord) (fromDate : Int) :
    Option Int :=
  if task.enabled = false ∨ task.status = TaskStatus.completed then
    task.next_run
  else if task.trigger_type = TriggerType.interval then
    match task.next_run with
    | some existing =>
        if fromDate < existing then some existing
        else
          let intervalMs := computeIntervalMs task.trigger_config
          if intervalMs ≤ 0 then none
          else some (jsTrunc ((fromDate : ℚ) + intervalMs))
    | none =>
        let intervalMs := computeIntervalMs task.trigger_config
        if intervalMs ≤ 0 then none
        else some (jsTrunc ((fromDate : ℚ) + intervalMs))
  else if task.trigger_type = TriggerType.cron then
    match task.next_run with
    | some existing =>
        if fromDate < existing then some existing
        else
          match task.trigger_config with
          | .cron expr => cronNext expr fromDate
          | _ => none
    | none =>
        match task.trigger_config with
        | .cron expr => cronNext expr fromDate
        | _ => none
  else
    match task.trigger_config with
    | .date runDate => if runDate ≤ fromDate then none else some runDate
    | _ => none

/-- TaskScheduler.appendHistory: prepend the new entry (starting from the
empty list when the record has none) and cut back to the limit when the
length exceeds it. -/
def appendHistoryList (h : Option (List HistoryEntry)) (e : HistoryEntry) :
    List HistoryEntry :=
  let h1 := e :: h.getD []
  if h1.length > historyLimit then h1.take historyLimit else h1

/-- TaskScheduler.determineStatus: the ordered normalization rules. -/
def determineStatus (task : TaskRecord) (now : Int) : TaskStatus :=
  if task.enabled = false then
    if task.status = TaskStatus.completed then TaskStatus.completed
    else TaskStatus.paused
  else if task.status = TaskStatus.running then TaskStatus.running
  else if task.trigger_type = TriggerType.date then
    if (task.history.getD []).head?.map HistoryEntry.status
        = some HistStatus.success then
      TaskStatus.completed
    else
      match task.trigger_config with
      | .date runDate =>
          if runDate ≤ now then TaskStatus.completed else TaskStatus.scheduled
      | _ => TaskStatus.scheduled
  else if task.last_status = some LastStatus.error then TaskStatus.error
  else TaskStatus.scheduled

/-- First step of normaliseTask: truncate an over-long history. -/
def truncHistory (task : TaskRecord) : TaskRecord :=
  match task.history with
  | some h =>
      if h.length > historyLimit then
        { task with history := some (h.take historyLimit) }
      else task
  | none => task

/-- TaskScheduler.normaliseTask: truncate over-long history, recompute the
status, force a completed date task to be disabled, recompute `next_run`
from the mutated record, and backfill a missing `updated_at`. -/
def normaliseTask (cronNext : CronNext) (task : TaskRecord) (now : Int) :
    TaskRecord :=
  let t1 := truncHistory task
  let t2 := { t1 with status := determineStatus t1 now }
  let t3 :=
    if t2.trigger_type = TriggerType.date ∧ t2.status = TaskStatus.completed
    then { t2 with enabled := false }
    else t2
  let t4 := { t3 with next_run := computeNextRun cronNext t3 now }
  { t4 with updated_at := some (t4.updated_at.getD now) }

/-- Observable behaviour of the sampling peer during one fire: a reply
whose extracted content is the given string, a timeout (JS error code
-32001), or some other thrown error with its message. -/
inductive SamplingOutcome where
  | ok (content : String)
  | timeout
  | err (msg : String)
deriving DecidableEq, Repr

/-- Failure of the try block of runTask. -/
inductive FireError where
  | timeout
  | other (msg : String)
deriving DecidableEq, Repr

/-- Message computed by the try block of TaskScheduler.runTask: sampling
when an agent prompt is configured and the server handle is available,
the not-ready notice when the handle is missing, the legacy notice when
only the deprecated tool fields are set, and the no-action message
otherwise. -/
def tryOutcomeMessage (hasServer : Bool) (sampling : SamplingOutcome)
    (task : TaskRecord) : Except FireError String :=
  if jsTruthy task.agent_prompt then
    if hasServer then
      match sampling with
      | .ok content => Except.ok ("Sampling response: " ++ content)
      | .timeout => Except.error FireError.timeout
      | .err m => Except.error (FireError.other m)
    else
      Except.ok
        "Task configured with agent_prompt but MCP server is not ready to send sampling requests"
  else if jsTruthy task.mcp_server ∧ jsTruthy task.mcp_tool then
    Except.ok
      ("Task configured (legacy): " ++ (task.mcp_server.getD "") ++ "."
        ++ (task.mcp_tool.getD ""))
  else
    Except.ok ("Task executed: " ++ task.name ++ " (no action configured)")

/-- Canonical timeout message of runTask for a configured timeout in
milliseconds. -/
def timeoutMessage (timeoutMs : ℚ) : String :=
  "Sampling request timed out after " ++ toString (jsRound (timeoutMs / 1000))
    ++ "s"

/-- TaskScheduler.runTask: mark the task running, evaluate the try block,
then either record the success (completed for date triggers, otherwise
scheduled with a recomputed `next_run`) or record the failure (status
error, recomputed `next_run`); in both branches the history entry is
prepended and clamped.  `start` is the instant read at entry; `tEnd`
stands for the instants read after the action finished.  The try block
reads only fields (agent_prompt, mcp_server, mcp_tool, name) untouched by
the running-phase stamp, so it is evaluated on the incoming record.  The
result also carries the success flag and message returned to the
caller. -/
def runTask (cronNext : CronNext) (timeoutMs : ℚ) (hasServer : Bool)
    (sampling : SamplingOutcome) (task : TaskRecord) (start tEnd : Int) :
    TaskRecord × Bool × String :=
  let t0 := { task with
    status := TaskStatus.running
    last_run := some start
    last_status := some LastStatus.running
    last_message := none
    updated_at := some start }
  match tryOutcomeMessage hasServer sampling task with
  | Except.ok message =>
      let t1 := { t0 with
        last_status := some LastStatus.success
        last_message := some message
        status := if t0.trigger_type = TriggerType.date then
            TaskStatus.completed else TaskStatus.scheduled }
      let entry : HistoryEntry := ⟨start, HistStatus.success, some message⟩
      let t2 := { t1 with history := some (appendHistoryList t1.history entry) }
      let t3 :=
        if t2.trigger_type = TriggerType.date then
          { t2 with enabled := false, next_run := none }
        else
          { t2 with next_run := computeNextRun cronNext t2 start }
      ({ t3 with updated_at := some tEnd }, true, message)
  | Except.error e =>
      let errorMessage :=
        match e with
        | FireError.timeout => timeoutMessage timeoutMs
        | FireError.other m => m
      let t1 := { t0 with
        last_status := some LastStatus.error
        last_message := some errorMessage
        status := TaskStatus.error }
      let t2 := { t1 with next_run := computeNextRun cronNext t1 tEnd }
      let entry : HistoryEntry := ⟨start, HistStatus.error, some errorMessage⟩
      let t3 := { t2 with history := some (appendHistoryList t2.history entry) }
      ({ t3 with updated_at := some tEnd }, false, errorMessage)

/-- JS value supplied in a raw trigger config.  `ensureNumber` in the code
accepts numbers and numeric strings; a numeric string is embedded as the
number it coerces to, every other value as `other`. -/
inductive JVal where
  | num (q : ℚ)
  | other
deriving DecidableEq, Repr

/-- Raw trigger config object: keys with values, in property order. -/
abbrev RawConfig : Type := List (String × JVal)

/-- Keys accepted by the interval validator. -/
def allowedIntervalKeys : List String := ["seconds", "minutes", "hours", "days"]

/-- Validated interval fields (the object returned by
validateIntervalConfig). -/
structure IntervalFields where
  seconds : Option ℚ
  minutes : Option ℚ
  hours : Option ℚ
  days : Option ℚ
deriving DecidableEq, Repr

/-- Millisecond total of validated interval fields, as accumulated by the
validator. -/
def intervalFieldsMs (f : IntervalFields) : ℚ :=
  f.seconds.getD 0 * 1000 + f.minutes.getD 0 * (60 * 1000) +
    f.hours.getD 0 * (60 * 60 * 1000) + f.days.getD 0 * (24 * 60 * 60 * 1000)

/-- Millisecond total read directly off a raw config, counting only keys
holding numbers (absent or non-numeric keys contribute nothing). -/
def rawIntervalMs (raw : RawConfig) : ℚ :=
  let val : String → ℚ := fun k =>
    match List.lookup k raw with
    | some (JVal.num q) => q
    | _ => 0
  val "seconds" * 1000 + val "minutes" * (60 * 1000) +
    val "hours" * (60 * 60 * 1000) + val "days" * (24 * 60 * 60 * 1000)

/-- Processing of one interval field: absent fields are skipped, a
non-numeric value fails ensureNumber, a value below 0.001 fails the
positivity check, otherwise the value and its millisecond contribution are
returned. -/
def processIntervalField (raw : RawConfig) (key : String) (mult : ℚ)
    (small : String) : Except String (Option ℚ × ℚ) :=
  match List.lookup key raw with
  | none => Except.ok (none, 0)
  | some JVal.other =>
      Except.error ("Invalid numeric value for trigger_config." ++ key)
  | some (JVal.num q) =>
      if q < 1 / 1000 then Except.error small
      else Except.ok (some q, q * mult)

/-- validateIntervalConfig of index.ts: reject any key outside the four
allowed ones (at the first offender in property order), process the four
fields in order, and require a positive millisecond total. -/
def validateIntervalConfig (raw : RawConfig) : Except String IntervalFields :=
  match raw.find? (fun kv => !(allowedIntervalKeys.contains kv.1)) with
  | some kv => Except.error ("Unknown interval option: " ++ kv.1)
  | none =>
    match processIntervalField raw "seconds" 1000
        "Seconds must be greater than 0" with
    | Except.error e => Except.error e
    | Except.ok (s, ms1) =>
      match processIntervalField raw "minutes" (60 * 1000)
          "Minutes must be greater than 0" with
      | Except.error e => Except.error e
      | Except.ok (m, ms2) =>
        match processIntervalField raw "hours" (60 * 60 * 1000)
            "Hours must be greater than 0" with
        | Except.error e => Except.error e
        | Except.ok (h, ms3) =>
          match processIntervalField raw "days" (24 * 60 * 60 * 1000)
              "Days must be greater than 0" with
          | Except.error e => Except.error e
          | Except.ok (d, ms4) =>
            if ms1 + ms2 + ms3 + ms4 ≤ 0 then
              Except.error
                "Interval trigger requires at least one positive duration field"
            else Except.ok ⟨s, m, h, d⟩

/-- Shape of the run_date property handed to validateDateConfig: absent,
present but not a non-empty string (skipped by the code), a non-empty
string that fails Date parsing, or a string parsing to an instant. -/
inductive RunDateField where
  | absent
  | notString
  | badParse
  | parsed (t : Int)
deriving DecidableEq, Repr

/-- Raw date trigger config (extra keys are copied and ignored by the
validator, so they are not modelled). -/
structure RawDateConfig where
  run_date : RunDateField
  delay_seconds : Option JVal
  delay_minutes : Option JVal
  delay_hours : Option JVal
  delay_days : Option JVal
deriving DecidableEq, Repr

/-- Processing of one delay field of validateDateConfig: absent fields add
nothing, non-numeric values fail ensureNumber, negative values are
rejected, otherwise the millisecond contribution is returned. -/
def processDelayField (v : Option JVal) (mult : ℚ) (fieldName : String) :
    Except String ℚ :=
  match v with
  | none => Except.ok 0
  | some JVal.other =>
      Except.error ("Invalid numeric value for trigger_config." ++ fieldName)
  | some (JVal.num q) =>
      if q < 0 then Except.error (fieldName ++ " must be >= 0")
      else Except.ok (q * mult)

/-- Millisecond total of the delay fields of a raw date config, counting
only fields holding numbers. -/
def rawDelayMs (raw : RawDateConfig) : ℚ :=
  let val : Option JVal → ℚ := fun v =>
    match v with
    | some (JVal.num q) => q
    | _ => 0
  val raw.delay_seconds * 1000 + val raw.delay_minutes * (60 * 1000) +
    val raw.delay_hours * (60 * 60 * 1000) +
    val raw.delay_days * (24 * 60 * 60 * 1000)

/-- validateDateConfig of index.ts: accumulate the delay total, parse an
explicit run_date, materialize the instant (explicit date first, else now
plus the delay when positive), fail when neither exists, and push an
instant lying at or before now into the future (now plus the delay when
positive, else now plus one second).  Returns the materialized run_date
instant. -/
def validateDateConfig (raw : RawDateConfig) (now : Int) : Except String Int :=
  match processDelayField raw.delay_seconds 1000 "delay_seconds" with
  | Except.error e => Except.error e
  | Except.ok d1 =>
  match processDelayField raw.delay_minutes (60 * 1000) "delay_minutes" with
  | Except.error e => Except.error e
  | Except.ok d2 =>
  match processDelayField raw.delay_hours (60 * 60 * 1000) "delay_hours" with
  | Except.error e => Except.error e
  | Except.ok d3 =>
  match processDelayField raw.delay_days (24 * 60 * 60 * 1000) "delay_days" with
  | Except.error e => Except.error e
  | Except.ok d4 =>
    let delayMs := d1 + d2 + d3 + d4
    match raw.run_date with
    | RunDateField.badParse =>
        Except.error "Invalid ISO date string for run_date"
    | RunDateField.parsed r =>
        if r ≤ now then
          if 0 < delayMs then
            Except.ok (jsTrunc ((now : ℚ) + delayMs))
          else Except.ok (now + 1000)
        else Except.ok r
    | _ =>
        if 0 < delayMs then
          let r := jsTrunc ((now : ℚ) + delayMs)
          if r ≤ now then
            Except.ok (jsTrunc ((now : ℚ) + delayMs))
          else Except.ok r
        else
          Except.error
            "Date trigger requires either run_date or delay fields (delay_seconds/minutes/hours/days)"

/-- Stored state for one task id: the row of the tasks table and the
history rows for that id, in insertion order. -/
structure StoredTask where
  row : TaskRecord
  hist : List HistoryEntry
deriving DecidableEq, Repr

/-- Durable store: the tasks table with its attached history rows, keyed
by task id, in insertion order of the rows. -/
abbrev StoreState : Type := List (String × StoredTask)

/-- Row written for a task record: the record without the history
attachment (history rows live in their own relation). -/
def rowOf (t : TaskRecord) : TaskRecord :=
  { t with history := none }

/-- TaskStorage.upsert: insert the row or replace the row of the same id;
when the record carries a history array, replace the history rows of this
id with that sequence, otherwise keep the stored rows (a freshly inserted
id has none). -/
def upsertStore (t : TaskRecord) : StoreState → StoreState
  | [] => [(t.id, ⟨rowOf t, t.history.getD []⟩)]
  | e :: rest =>
      if e.1 = t.id then
        (t.id, ⟨rowOf t,
          match t.history with
          | some h => h
          | none => e.2.hist⟩) :: rest
      else e :: upsertStore t rest

/-- Lookup of the stored entry for an id. -/
def findEntry : StoreState → String → Option StoredTask
  | [], _ => none
  | e :: rest, id => if e.1 = id then some e.2 else findEntry rest id

/-- Stable ordering of history rows by run_at descending, as produced by
the SELECT of loadHistory. -/
def sortHistDesc (h : List HistoryEntry) : List HistoryEntry :=
  List.insertionSort (fun a b => b.run_at ≤ a.run_at) h

/-- Hydration of a stored entry: the row with the history rows attached,
newest first (TaskStorage.mapRowToTask plus loadHistory). -/
def hydrateStored (st : StoredTask) : TaskRecord :=
  { st.row with history := some (sortHistDesc st.hist) }

/-- TaskStorage.get: the hydrated task for an id, when the row exists. -/
def getStore (s : StoreState) (id : String) : Option TaskRecord :=
  (findEntry s id).map hydrateStored

/-- Ordering of the tasks table by created_at ascending, as produced by
the SELECT of list. -/
def sortCreatedAsc (s : StoreState) : StoreState :=
  List.insertionSort (fun a b => a.2.row.created_at ≤ b.2.row.created_at) s

/-- TaskStorage.list: every task hydrated, ordered by created_at. -/
def listStore (s : StoreState) : List TaskRecord :=
  (sortCreatedAsc s).map (fun e => hydrateStored e.2)

/-- TaskStorage.clearHistory (store level): delete the history rows of the
id and null last_run, last_status and last_message on the row, stamping
updated_at. -/
def clearHistoryStore (s : StoreState) (id : String) (now : Int) : StoreState :=
  s.map (fun e =>
    if e.1 = id then
      (e.1, ⟨{ e.2.row with
        last_run := none
        last_status := none
        last_message := none
        updated_at := some now }, []⟩)
    else e)

/-- Partial update accepted by TaskStorage.updateStatus: a field is
written exactly when it is present (fields holding undefined are treated
as absent by the code). -/
structure StatusPatch where
  last_run : Option Int
  last_status : Option LastStatus
  last_message : Option String
  next_run : Option Int
deriving DecidableEq, Repr

/-- Emptiness of a status patch: no field present. -/
def patchIsEmpty (p : StatusPatch) : Bool :=
  p.last_run.isNone && p.last_status.isNone && p.last_message.isNone &&
    p.next_run.isNone

/-- Row transformation of TaskStorage.updateStatus: present fields are
written, updated_at is stamped. -/
def applyStatusPatch (r : TaskRecord) (p : StatusPatch) (now : Int) :
    TaskRecord :=
  { r with
    last_run := match p.last_run with
      | some v => some v
      | none => r.last_run
    last_status := match p.last_status with
      | some v => some v
      | none => r.last_status
    last_message := match p.last_message with
      | some v => some v
      | none => r.last_message
    next_run := match p.next_run with
      | some v => some v
      | none => r.next_run
    updated_at := some now }

/-- TaskStorage.updateStatus: with an empty patch the function returns
before preparing any statement, leaving the store untouched; otherwise the
row of the id is patched and updated_at stamped. -/
def updateStatusStore (s : StoreState) (id : String) (p : StatusPatch)
    (now : Int) : StoreState :=
  if patchIsEmpty p then s
  else s.map (fun e =>
    if e.1 = id then (e.1, ⟨applyStatusPatch e.2.row p now, e.2.hist⟩) else e)

/-- TaskScheduler.getTask: read the task, normalise it, write the
normalised record back, and return it. -/
def getTaskSched (cronNext : CronNext) (s : StoreState) (id : String)
    (now : Int) : Option TaskRecord × StoreState :=
  match getStore s id with
  | none => (none, s)
  | some t =>
      let u := normaliseTask cronNext t now
      (some u, upsertStore u s)

/-- TaskScheduler.listTasks: list the store, normalise every task, write
each normalised record back, and return them. -/
def listTasksSched (cronNext : CronNext) (s : StoreState) (now : Int) :
    List TaskRecord × StoreState :=
  (listStore s).foldl
    (fun acc t =>
      let u := normaliseTask cronNext t now
      (acc.1 ++ [u], upsertStore u acc.2))
    ([], s)

/-- TaskScheduler.clearTaskHistory (the operation behind the
clear_task_history tool): load the task, empty its history attachment,
clear last_message and last_status, stamp updated_at, and upsert the
record (last_run is not touched). -/
def clearTaskHistorySched (s : StoreState) (id : String) (now : Int) :
    Except String (TaskRecord × StoreState) :=
  match getStore s id with
  | none => Except.error ("Task not found: " ++ id)
  | some t =>
      let t1 := { t with
        history := some []
        last_message := none
        last_status := none
        updated_at := some now }
      Except.ok (t1, upsertStore t1 s)

/-- TaskScheduler.createTask: build the fresh record (enabled, scheduled,
empty history, both stamps at now), compute next_run, and upsert. -/
def createTaskSched (cronNext : CronNext) (s : StoreState)
    (name : String) (tt : TriggerType) (cfg : TriggerConfig)
    (agentPrompt : Option String) (newId : String) (now : Int) :
    TaskRecord × StoreState :=
  let task : TaskRecord := {
    id := newId
    name := name
    trigger_type := tt
    trigger_config := cfg
    mcp_server := none
    mcp_tool := none
    mcp_arguments := none
    agent_prompt := agentPrompt
    enabled := true
    status := TaskStatus.scheduled
    created_at := now
    updated_at := some now
    last_run := none
    last_status := none
    last_message := none
    next_run := none
    history := some [] }
  let task1 := { task with next_run := computeNextRun cronNext task now }
  (task1, upsertStore task1 s)

/-- Tool-level create_task for an interval trigger: validation runs before
the scheduler is invoked, so a validation error yields no task and no
store write. -/
def createTaskIntervalTool (cronNext : CronNext) (s : StoreState)
    (name : String) (raw : RawConfig) (agentPrompt : Option String)
    (newId : String) (now : Int) :
    Except String (TaskRecord × StoreState) :=
  match validateIntervalConfig raw with
  | Except.error e => Except.error e
  | Except.ok f =>
      Except.ok (createTaskSched cronNext s name TriggerType.interval
        (TriggerConfig.interval f.seconds f.minutes f.hours f.days)
        agentPrompt newId now)

/-! Helper lemmas. -/

/-- Truncation of an integer value is that integer. -/
theorem jsTrunc_intCast (n : ℤ) : jsTrunc (n : ℚ) = n := by
  unfold jsTrunc
  split
  · exact Int.floor_intCast (α := ℚ) n
  · unfold Rat.ceil
    simp [Rat.den_intCast, Rat.num_intCast]

/-- The next-run computation only reads the enabled flag, status, trigger
type, trigger config and stored next_run of a record. -/
theorem computeNextRun_congr (c : CronNext) (t1 t2 : TaskRecord) (n : Int)
    (h1 : t1.enabled = t2.enabled) (h2 : t1.status = t2.status)
    (h3 : t1.trigger_type = t2.trigger_type)
    (h4 : t1.trigger_config = t2.trigger_config)
    (h5 : t1.next_run = t2.next_run) :
    computeNextRun c t1 n = computeNextRun c t2 n := by
  unfold computeNextRun
  rw [h1, h2, h3, h4, h5]

/-- C1: for an enabled, not-completed interval task, computeNextRun
preserves the tick schedule: a stored next_run strictly after the
reference instant is returned unchanged; otherwise the reference instant
plus the interval duration in milliseconds is returned. -/
theorem claim_C1_interval_tick (cronNext : CronNext) (task : TaskRecord)
    (ref : Int) (hT : task.trigger_type = TriggerType.interval)
    (hE : task.enabled = true) (hS : task.status ≠ TaskStatus.completed) :
    (∀ p, task.next_run = some p → ref < p →
      computeNextRun cronNext task ref = some p) ∧
    (∀ d : ℤ, (∀ p, task.next_run = some p → p ≤ ref) →
      computeIntervalMs task.trigger_config = (d : ℚ) → 0 < d →
      computeNextRun cronNext task ref = some (ref + d)) := by
  constructor
  · intro p hp hlt
    simp [computeNextRun, hE, hS, hT, hp, hlt]
  · intro d hPast hMs hd
    have hcond : ¬ (task.enabled = false ∨ task.status = TaskStatus.completed) := by
      simp [hE, hS]
    have h1 : ¬ ((d : ℚ) ≤ 0) := by
      rw [not_le]
      exact_mod_cast hd
    have h2 : (ref : ℚ) + (d : ℚ) = ((ref + d : ℤ) : ℚ) := by push_cast; ring
    unfold computeNextRun
    rw [if_neg hcond, hT, if_pos rfl]
    cases hn : task.next_run with
    | none =>
        simp only [hMs]
        rw [if_neg h1, h2, jsTrunc_intCast]
    | some p =>
        have hple : ¬ (ref < p) := not_lt.mpr (hPast p hn)
        simp only [hMs, hple, if_false]
        rw [if_neg h1, h2, jsTrunc_intCast]

/-- Sample interval task used by witnesses. -/
def witTaskInterval : TaskRecord := {
  id := "t1"
  name := "heartbeat"
  trigger_type := TriggerType.interval
  trigger_config := TriggerConfig.interval (some 1) none none none
  mcp_server := none
  mcp_tool := none
  mcp_arguments := none
  agent_prompt := none
  enabled := true
  status := TaskStatus.scheduled
  created_at := 0
  updated_at := some 0
  last_run := none
  last_status := none
  last_message := none
  next_run := some 500
  history := none }

/-- Witness for C1 at a concrete interval task: the stored future tick 500
is preserved at reference 100, and at reference 600 the one-second
interval yields 1600. -/
theorem claim_C1_interval_tick_witness :
    computeNextRun (fun _ _ => none) witTaskInterval 100 = some 500 ∧
    computeNextRun (fun _ _ => none) witTaskInterval 600 = some 1600 := by
  have h := claim_C1_interval_tick (fun _ _ => none) witTaskInterval 100
    rfl rfl (by decide)
  have h600 := claim_C1_interval_tick (fun _ _ => none) witTaskInterval 600
    rfl rfl (by decide)
  refine ⟨h.1 500 rfl (by decide), ?_⟩
  have hPast : ∀ p, witTaskInterval.next_run = some p → p ≤ (600 : ℤ) := by
    intro p hp
    injection hp with h3
    rw [← h3]
    decide
  have hMs : computeIntervalMs witTaskInterval.trigger_config
      = ((1000 : ℤ) : ℚ) := by
    norm_num [witTaskInterval, computeIntervalMs]
  have h2 := h600.2 1000 hPast hMs (by decide)
  rw [h2]
  norm_num

/-- Numeric value of a delay field (0 when absent or non-numeric). -/
def delayVal (v : Option JVal) : ℚ :=
  match v with
  | some (JVal.num q) => q
  | _ => 0

/-- Well-formedness of one delay field: absent, or a nonnegative number. -/
def delayValOk (v : Option JVal) : Bool :=
  match v with
  | none => true
  | some (JVal.num q) => decide (0 ≤ q)
  | some JVal.other => false

/-- Evaluation of processDelayField on a well-formed field. -/
theorem processDelayField_ok (v : Option JVal) (mult : ℚ) (nm : String)
    (h : delayValOk v = true) :
    processDelayField v mult nm = Except.ok (delayVal v * mult) := by
  match v with
  | none => simp [processDelayField, delayVal]
  | some JVal.other => simp [delayValOk] at h
  | some (JVal.num q) =>
      have hq : (0 : ℚ) ≤ q := by simpa [delayValOk] using h
      simp [processDelayField, delayVal, not_lt.mpr hq]

/-- Decomposition of the raw delay total into the four contributions. -/
theorem rawDelayMs_eq (raw : RawDateConfig) :
    rawDelayMs raw = delayVal raw.delay_seconds * 1000 +
      delayVal raw.delay_minutes * (60 * 1000) +
      delayVal raw.delay_hours * (60 * 60 * 1000) +
      delayVal raw.delay_days * (24 * 60 * 60 * 1000) := by
  unfold rawDelayMs delayVal
  rfl

/-- C3: date-trigger validation materializes an absolute run_date: an
explicit future run_date is returned as given; a run_date lying at or
before now is re-materialized as now plus the delay total when that total
is positive and as now plus one second otherwise; without a parsed
run_date a positive delay total materializes now plus the delay.  The
delay fields are assumed well-formed with an integral millisecond total
d. -/
theorem claim_C3_date_materialization (raw : RawDateConfig) (now : Int)
    (h1 : delayValOk raw.delay_seconds = true)
    (h2 : delayValOk raw.delay_minutes = true)
    (h3 : delayValOk raw.delay_hours = true)
    (h4 : delayValOk raw.delay_days = true)
    (d : ℤ) (hd : rawDelayMs raw = (d : ℚ)) :
    (∀ r, raw.run_date = RunDateField.parsed r → now < r →
      validateDateConfig raw now = Except.ok r) ∧
    (∀ r, raw.run_date = RunDateField.parsed r → r ≤ now → 0 < d →
      validateDateConfig raw now = Except.ok (now + d)) ∧
    (∀ r, raw.run_date = RunDateField.parsed r → r ≤ now → d = 0 →
      validateDateConfig raw now = Except.ok (now + 1000)) ∧
    ((raw.run_date = RunDateField.absent ∨
        raw.run_date = RunDateField.notString) → 0 < d →
      validateDateConfig raw now = Except.ok (now + d)) := by
  have hsum : delayVal raw.delay_seconds * 1000 +
      delayVal raw.delay_minutes * (60 * 1000) +
      delayVal raw.delay_hours * (60 * 60 * 1000) +
      delayVal raw.delay_days * (24 * 60 * 60 * 1000) = (d : ℚ) := by
    rw [← rawDelayMs_eq]
    exact hd
  have hcast : (now : ℚ) + (d : ℚ) = ((now + d : ℤ) : ℚ) := by
    push_cast
    ring
  have heval : validateDateConfig raw now =
      match raw.run_date with
      | RunDateField.badParse =>
          Except.error "Invalid ISO date string for run_date"
      | RunDateField.parsed r =>
          if r ≤ now then
            if 0 < (d : ℚ) then Except.ok (jsTrunc ((now : ℚ) + (d : ℚ)))
            else Except.ok (now + 1000)
          else Except.ok r
      | _ =>
          if 0 < (d : ℚ) then
            if jsTrunc ((now : ℚ) + (d : ℚ)) ≤ now then
              Except.ok (jsTrunc ((now : ℚ) + (d : ℚ)))
            else Except.ok (jsTrunc ((now : ℚ) + (d : ℚ)))
          else
            Except.error
              "Date trigger requires either run_date or delay fields (delay_seconds/minutes/hours/days)" := by
    unfold validateDateConfig
    rw [processDelayField_ok _ _ _ h1, processDelayField_ok _ _ _ h2,
      processDelayField_ok _ _ _ h3, processDelayField_ok _ _ _ h4]
    simp only [hsum]
  refine ⟨?_, ?_, ?_, ?_⟩
  · intro r hr hlt
    rw [heval, hr]
    simp [not_le.mpr hlt]
  · intro r hr hle hdp
    have hdq : (0 : ℚ) < (d : ℚ) := by exact_mod_cast hdp
    rw [heval, hr]
    simp only [if_pos hle, if_pos hdq]
    rw [hcast, jsTrunc_intCast]
  · intro r hr hle hdz
    have hdq : ¬ ((0 : ℚ) < (d : ℚ)) := by
      rw [hdz]
      simp
    rw [heval, hr]
    simp only [if_pos hle, if_neg hdq]
  · intro hr hdp
    have hdq : (0 : ℚ) < (d : ℚ) := by exact_mod_cast hdp
    have htr : jsTrunc ((now : ℚ) + (d : ℚ)) = now + d := by
      rw [hcast, jsTrunc_intCast]
    rcases hr with hr | hr
    · rw [heval, hr]
      simp only [if_pos hdq, htr, ite_self]
    · rw [heval, hr]
      simp only [if_pos hdq, htr, ite_self]

/-- Witness for C3, the delay example of the spec: a run_date in the past
together with delay_minutes 5 materializes now plus five minutes. -/
theorem claim_C3_date_materialization_witness :
    validateDateConfig
      { run_date := RunDateField.parsed 0
        delay_seconds := none
        delay_minutes := some (JVal.num 5)
        delay_hours := none
        delay_days := none } 1000000 = Except.ok (1000000 + 300000) := by
  have h := claim_C3_date_materialization
    { run_date := RunDateField.parsed 0
      delay_seconds := none
      delay_minutes := some (JVal.num 5)
      delay_hours := none
      delay_days := none } 1000000 (by decide) (by decide) (by decide)
    (by decide) 300000 (by norm_num [rawDelayMs])
  exact h.2.1 0 rfl (by decide) (by decide)

/-- Appending to a history list is prepending and clamping to the limit. -/
theorem appendHistoryList_eq_take (h : Option (List HistoryEntry))
    (e : HistoryEntry) :
    appendHistoryList h e = List.take historyLimit (e :: h.getD []) := by
  unfold appendHistoryList
  by_cases hlen : (e :: h.getD []).length > historyLimit
  · simp [hlen]
  · simp [hlen, List.take_of_length_le (Nat.le_of_not_lt hlen)]

/-- History of the record produced by a fire: the new entry prepended to
the incoming history and clamped. -/
theorem runTask_history (cronNext : CronNext) (timeoutMs : ℚ)
    (hasServer : Bool) (sampling : SamplingOutcome) (task : TaskRecord)
    (start tEnd : Int) :
    (runTask cronNext timeoutMs hasServer sampling task start tEnd).1.history
      = some (List.take historyLimit
          (⟨start,
            if (runTask cronNext timeoutMs hasServer sampling task
                start tEnd).2.1
              then HistStatus.success else HistStatus.error,
            some (runTask cronNext timeoutMs hasServer sampling task
              start tEnd).2.2⟩ :: task.history.getD [])) := by
  cases htry : tryOutcomeMessage hasServer sampling task with
  | ok m =>
      by_cases hdate : task.trigger_type = TriggerType.date <;>
        simp [runTask, htry, appendHistoryList_eq_take, hdate]
  | error e => simp [runTask, htry, appendHistoryList_eq_take]

/-- History truncation leaves the enabled flag unchanged. -/
theorem truncHistory_enabled (task : TaskRecord) :
    (truncHistory task).enabled = task.enabled := by
  unfold truncHistory
  split
  · split <;> rfl
  · rfl

/-- History truncation leaves the status unchanged. -/
theorem truncHistory_status (task : TaskRecord) :
    (truncHistory task).status = task.status := by
  unfold truncHistory
  split
  · split <;> rfl
  · rfl

/-- History truncation leaves the trigger type unchanged. -/
theorem truncHistory_trigger_type (task : TaskRecord) :
    (truncHistory task).trigger_type = task.trigger_type := by
  unfold truncHistory
  split
  · split <;> rfl
  · rfl

/-- History truncation leaves the trigger config unchanged. -/
theorem truncHistory_trigger_config (task : TaskRecord) :
    (truncHistory task).trigger_config = task.trigger_config := by
  unfold truncHistory
  split
  · split <;> rfl
  · rfl

/-- History truncation leaves next_run unchanged. -/
theorem truncHistory_next_run (task : TaskRecord) :
    (truncHistory task).next_run = task.next_run := by
  unfold truncHistory
  split
  · split <;> rfl
  · rfl

/-- History truncation leaves created_at unchanged. -/
theorem truncHistory_created_at (task : TaskRecord) :
    (truncHistory task).created_at = task.created_at := by
  unfold truncHistory
  split
  · split <;> rfl
  · rfl

/-- History truncation leaves updated_at unchanged. -/
theorem truncHistory_updated_at (task : TaskRecord) :
    (truncHistory task).updated_at = task.updated_at := by
  unfold truncHistory
  split
  · split <;> rfl
  · rfl

/-- History truncation leaves the id unchanged. -/
theorem truncHistory_id (task : TaskRecord) :
    (truncHistory task).id = task.id := by
  unfold truncHistory
  split
  · split <;> rfl
  · rfl

/-- History truncation leaves last_status unchanged. -/
theorem truncHistory_last_status (task : TaskRecord) :
    (truncHistory task).last_status = task.last_status := by
  unfold truncHistory
  split
  · split <;> rfl
  · rfl

/-- History truncation takes the first historyLimit entries. -/
theorem truncHistory_history (task : TaskRecord) :
    (truncHistory task).history
      = task.history.map (fun h => h.take historyLimit) := by
  unfold truncHistory
  split
  · next h heq =>
      by_cases hl : h.length > historyLimit
      · simp [hl, heq]
      · simp [hl, heq, List.take_of_length_le (Nat.le_of_not_lt hl)]
  · next heq =>
      simp [heq]

/-- Status of a normalised record is the recomputed status of the
truncated record. -/
theorem normaliseTask_status (c : CronNext) (task : TaskRecord) (now : Int) :
    (normaliseTask c task now).status
      = determineStatus (truncHistory task) now := by
  unfold normaliseTask
  by_cases hc : (truncHistory task).trigger_type = TriggerType.date ∧
      determineStatus (truncHistory task) now = TaskStatus.completed
  · simp [hc]
  · simp [hc]

/-- Enabled flag of a normalised record: forced off for a completed date
task, otherwise unchanged. -/
theorem normaliseTask_enabled (c : CronNext) (task : TaskRecord) (now : Int) :
    (normaliseTask c task now).enabled
      = if (truncHistory task).trigger_type = TriggerType.date ∧
            determineStatus (truncHistory task) now = TaskStatus.completed
        then false else (truncHistory task).enabled := by
  unfold normaliseTask
  by_cases hc : (truncHistory task).trigger_type = TriggerType.date ∧
      determineStatus (truncHistory task) now = TaskStatus.completed
  · simp [hc]
  · simp [hc]

/-- History of a normalised record is the truncated history. -/
theorem normaliseTask_history (c : CronNext) (task : TaskRecord) (now : Int) :
    (normaliseTask c task now).history
      = task.history.map (fun h => h.take historyLimit) := by
  unfold normaliseTask
  by_cases hc : (truncHistory task).trigger_type = TriggerType.date ∧
      determineStatus (truncHistory task) now = TaskStatus.completed
  · simp [hc, truncHistory_history]
  · simp [hc, truncHistory_history]

/-- Created_at of a normalised record is unchanged. -/
theorem normaliseTask_created_at (c : CronNext) (task : TaskRecord)
    (now : Int) :
    (normaliseTask c task now).created_at = task.created_at := by
  unfold normaliseTask
  by_cases hc : (truncHistory task).trigger_type = TriggerType.date ∧
      determineStatus (truncHistory task) now = TaskStatus.completed
  · simp [hc, truncHistory_created_at]
  · simp [hc, truncHistory_created_at]

/-- Id of a normalised record is unchanged. -/
theorem normaliseTask_id (c : CronNext) (task : TaskRecord) (now : Int) :
    (normaliseTask c task now).id = task.id := by
  unfold normaliseTask
  by_cases hc : (truncHistory task).trigger_type = TriggerType.date ∧
      determineStatus (truncHistory task) now = TaskStatus.completed
  · simp [hc, truncHistory_id]
  · simp [hc, truncHistory_id]

/-- Updated_at of a normalised record: backfilled with now only when
missing. -/
theorem normaliseTask_updated_at (c : CronNext) (task : TaskRecord)
    (now : Int) :
    (normaliseTask c task now).updated_at
      = some (task.updated_at.getD now) := by
  unfold normaliseTask
  by_cases hc : (truncHistory task).trigger_type = TriggerType.date ∧
      determineStatus (truncHistory task) now = TaskStatus.completed
  · simp [hc, truncHistory_updated_at]
  · simp [hc, truncHistory_updated_at]

/-- Head of a clamped history list starting with a given entry. -/
theorem head_take_limit (e : HistoryEntry) (l : List HistoryEntry) :
    ((e :: l).take historyLimit).head? = some e := rfl

/-- Next_run of a normalised record is recomputed from the normalised
fields with the stored next_run as previously planned instant. -/
theorem normaliseTask_next_run (c : CronNext) (task : TaskRecord)
    (now : Int) :
    (normaliseTask c task now).next_run
      = computeNextRun c
          { normaliseTask c task now with next_run := task.next_run } now := by
  unfold normaliseTask
  by_cases hc : (truncHistory task).trigger_type = TriggerType.date ∧
      determineStatus (truncHistory task) now = TaskStatus.completed
  · simp only [hc, and_self, if_true, ite_true]
    refine computeNextRun_congr c _ _ now rfl rfl rfl rfl ?_
    simp [truncHistory_next_run]
  · simp only [hc, if_false, ite_false]
    refine computeNextRun_congr c _ _ now rfl rfl rfl rfl ?_
    simp [truncHistory_next_run]

/-- C4: after every fire (success or error alike) the resulting history is
the new entry - carrying the fire outcome, the returned message and the
start instant - prepended to the previous history and clamped to ten
entries: its length is at most ten and the new entry is first.
Normalization truncates any stored history to its first ten entries, and
a normalised history never exceeds ten entries. -/
theorem claim_C4_history_bounded (cronNext : CronNext) (timeoutMs : ℚ)
    (hasServer : Bool) (sampling : SamplingOutcome) (task : TaskRecord)
    (start tEnd now : Int) :
    ((runTask cronNext timeoutMs hasServer sampling task start tEnd).1.history
      = some (List.take historyLimit
          (⟨start,
            if (runTask cronNext timeoutMs hasServer sampling task
                start tEnd).2.1
              then HistStatus.success else HistStatus.error,
            some (runTask cronNext timeoutMs hasServer sampling task
              start tEnd).2.2⟩ :: task.history.getD []))) ∧
    ((runTask cronNext timeoutMs hasServer sampling task
        start tEnd).1.history.getD []).length ≤ historyLimit ∧
    ((runTask cronNext timeoutMs hasServer sampling task
        start tEnd).1.history.getD []).head?
      = some ⟨start,
          if (runTask cronNext timeoutMs hasServer sampling task
              start tEnd).2.1
            then HistStatus.success else HistStatus.error,
          some (runTask cronNext timeoutMs hasServer sampling task
            start tEnd).2.2⟩ ∧
    (∀ h, task.history = some h →
      (normaliseTask cronNext task now).history
        = some (h.take historyLimit)) ∧
    ((normaliseTask cronNext task now).history.getD []).length
      ≤ historyLimit := by
  have hrh := runTask_history cronNext timeoutMs hasServer sampling task
    start tEnd
  refine ⟨hrh, ?_, ?_, ?_, ?_⟩
  · rw [hrh]
    simp
  · rw [hrh]
    exact head_take_limit _ _
  · intro h hh
    rw [normaliseTask_history, hh]
    rfl
  · rw [normaliseTask_history]
    cases hh : task.history with
    | none => simp
    | some h => simp

/-- Task with a long stored history, used by witnesses. -/
def witLongHistory : List HistoryEntry :=
  (List.range 12).map (fun i => ⟨(i : Int), HistStatus.success, none⟩)

/-- Task carrying twelve history entries. -/
def witTaskHist : TaskRecord :=
  { witTaskInterval with history := some witLongHistory }

/-- Witness for C4: normalising a task with twelve stored history entries
leaves exactly the first ten. -/
theorem claim_C4_history_bounded_witness :
    (normaliseTask (fun _ _ => none) witTaskHist 5).history
      = some (witLongHistory.take historyLimit) :=
  (claim_C4_history_bounded (fun _ _ => none) 0 false
    (SamplingOutcome.ok "") witTaskHist 0 0 5).2.2.2.1 witLongHistory rfl

/-- C2 (amended): after every successful fire of a date-trigger task the
record ends completed, disabled, with no next_run and a success entry
first in history; and normalization maps an ENABLED, NOT-RUNNING date
task whose most recent history entry is a success to status completed
(also forcing enabled off).  The enabled and not-running conditions are
required: the normalization rules handle a disabled task first, mapping
it to paused, and a running task to running, before the date rule is
consulted. -/
theorem claim_C2_date_completion (cronNext : CronNext) (timeoutMs : ℚ)
    (hasServer : Bool) (sampling : SamplingOutcome) (task : TaskRecord)
    (start tEnd now : Int) :
    (task.trigger_type = TriggerType.date →
      (runTask cronNext timeoutMs hasServer sampling task start tEnd).2.1
        = true →
      (runTask cronNext timeoutMs hasServer sampling task
          start tEnd).1.status = TaskStatus.completed ∧
      (runTask cronNext timeoutMs hasServer sampling task
          start tEnd).1.enabled = false ∧
      (runTask cronNext timeoutMs hasServer sampling task
          start tEnd).1.next_run = none ∧
      ((runTask cronNext timeoutMs hasServer sampling task
          start tEnd).1.history.getD []).head?.map HistoryEntry.status
        = some HistStatus.success) ∧
    (task.enabled = true → task.status ≠ TaskStatus.running →
      task.trigger_type = TriggerType.date →
      (task.history.getD []).head?.map HistoryEntry.status
        = some HistStatus.success →
      (normaliseTask cronNext task now).status = TaskStatus.completed ∧
      (normaliseTask cronNext task now).enabled = false) := by
  constructor
  · intro hdate hok
    cases htry : tryOutcomeMessage hasServer sampling task with
    | ok m =>
        refine ⟨?_, ?_, ?_, ?_⟩ <;>
          simp [runTask, htry, hdate, appendHistoryList_eq_take,
            head_take_limit]
    | error e =>
        rw [runTask] at hok
        rw [htry] at hok
        simp at hok
  · intro hE hR hT hH
    rcases hh : task.history with _ | h
    · rw [hh] at hH
      simp at hH
    · rcases h with _ | ⟨e, rest⟩
      · rw [hh] at hH
        simp at hH
      · have he : e.status = HistStatus.success := by
          rw [hh] at hH
          simpa using hH
        have hHead : ((truncHistory task).history.getD []).head? = some e := by
          rw [truncHistory_history, hh]
          exact head_take_limit e rest
        have hds : determineStatus (truncHistory task) now
            = TaskStatus.completed := by
          unfold determineStatus
          rw [truncHistory_enabled, truncHistory_status,
            truncHistory_trigger_type]
          simp [hE, hR, hT, hHead, he]
        refine ⟨?_, ?_⟩
        · rw [normaliseTask_status]
          exact hds
        · rw [normaliseTask_enabled]
          simp [truncHistory_trigger_type, hT, hds]

/-- Date task with one successful history entry, used by C2. -/
def witTaskDate : TaskRecord :=
  { witTaskInterval with
      trigger_type := TriggerType.date
      trigger_config := TriggerConfig.date 100
      history := some [⟨0, HistStatus.success, none⟩] }

/-- Witness for C2: a successful manual fire of a date task ends
completed and disabled with no next_run, and normalising an enabled
scheduled date task with a success entry first gives status completed. -/
theorem claim_C2_date_completion_witness :
    (runTask (fun _ _ => none) 0 false (SamplingOutcome.ok "") witTaskDate
        7 8).1.status = TaskStatus.completed ∧
    (normaliseTask (fun _ _ => none) witTaskDate 5).status
      = TaskStatus.completed := by
  have h := claim_C2_date_completion (fun _ _ => none) 0 false
    (SamplingOutcome.ok "") witTaskDate 7 8 5
  exact ⟨(h.1 rfl (by decide)).1, (h.2 rfl (by decide) rfl (by decide)).1⟩

/-- Disabled date task with a success entry first in history. -/
def witTaskDateDisabled : TaskRecord :=
  { witTaskDate with enabled := false }

/-- Counterexample for C2 as frozen: normalization does NOT map every
date task with a most-recent success entry to completed; a disabled one
is mapped to paused, because the disabled rule precedes the date rule. -/
theorem claim_C2_counterexample :
    (normaliseTask (fun _ _ => none) witTaskDateDisabled 5).status
        = TaskStatus.paused ∧
      TaskStatus.paused ≠ TaskStatus.completed := by
  constructor
  · decide
  · decide

/-- C5: when the sampling round trip of a fire times out (agent prompt
configured, server handle available, peer never replies within the
timeout), the fire fails; last_status becomes error and last_message is
exactly the canonical timeout string built from the configured timeout in
milliseconds divided by 1000 and rounded; an error history entry carrying
that message is prepended; and next_run is recomputed at the failure
instant from the record with status error (passing the stored next_run as
previously planned).  A 50 ms timeout yields the 0s message. -/
theorem claim_C5_sampling_timeout (cronNext : CronNext) (timeoutMs : ℚ)
    (task : TaskRecord) (start tEnd : Int)
    (hPrompt : jsTruthy task.agent_prompt = true) :
    (runTask cronNext timeoutMs true SamplingOutcome.timeout task
        start tEnd).2.1 = false ∧
    (runTask cronNext timeoutMs true SamplingOutcome.timeout task
        start tEnd).2.2 = timeoutMessage timeoutMs ∧
    (runTask cronNext timeoutMs true SamplingOutcome.timeout task
        start tEnd).1.last_status = some LastStatus.error ∧
    (runTask cronNext timeoutMs true SamplingOutcome.timeout task
        start tEnd).1.last_message = some (timeoutMessage timeoutMs) ∧
    (runTask cronNext timeoutMs true SamplingOutcome.timeout task
        start tEnd).1.history
      = some (List.take historyLimit
          (⟨start, HistStatus.error, some (timeoutMessage timeoutMs)⟩
            :: task.history.getD [])) ∧
    (runTask cronNext timeoutMs true SamplingOutcome.timeout task
        start tEnd).1.next_run
      = computeNextRun cronNext { task with status := TaskStatus.error }
          tEnd ∧
    timeoutMessage 50 = "Sampling request timed out after 0s" := by
  have htry : tryOutcomeMessage true SamplingOutcome.timeout task
      = Except.error FireError.timeout := by
    simp [tryOutcomeMessage, hPrompt]
  refine ⟨?_, ?_, ?_, ?_, ?_, ?_, ?_⟩
  · simp [runTask, htry]
  · simp [runTask, htry]
  · simp [runTask, htry]
  · simp [runTask, htry]
  · simp [runTask, htry, appendHistoryList_eq_take]
  · simp only [runTask, htry]
    exact computeNextRun_congr cronNext _ _ tEnd rfl rfl rfl rfl rfl
  · have h0 : jsRound ((50 : ℚ) / 1000) = 0 := by
      unfold jsRound
      have h11 : (50 : ℚ) / 1000 + 1 / 2 = 11 / 20 := by norm_num
      rw [h11]
      have hfl : Rat.floor ((11 : ℚ) / 20) = ⌊(11 : ℚ) / 20⌋ := rfl
      rw [hfl, Int.floor_eq_zero_iff]
      constructor <;> norm_num
    unfold timeoutMessage
    rw [h0]
    rfl

/-- Task with an agent prompt, used by the C5 witness. -/
def witTaskPrompt : TaskRecord :=
  { witTaskInterval with agent_prompt := some "ping" }

/-- Witness for C5 at a 50 ms timeout: the fire fails and the stored
message is the canonical 0s timeout string. -/
theorem claim_C5_sampling_timeout_witness :
    (runTask (fun _ _ => none) 50 true SamplingOutcome.timeout witTaskPrompt
        700 710).1.last_message
      = some "Sampling request timed out after 0s" := by
  have h := claim_C5_sampling_timeout (fun _ _ => none) 50 witTaskPrompt
    700 710 (by decide)
  rw [h.2.2.2.1, h.2.2.2.2.2.2]

/-- Inversion of one interval field: a successful processing step means
the field was absent (contributing nothing) or held a number of at least
0.001 (contributing its value times the multiplier). -/
theorem processIntervalField_ok_inv (raw : RawConfig) (key : String)
    (mult : ℚ) (small : String) (o : Option ℚ) (ms : ℚ)
    (h : processIntervalField raw key mult small = Except.ok (o, ms)) :
    (o = none ∧ ms = 0 ∧ List.lookup key raw = none) ∨
    (∃ q, o = some q ∧ 1 / 1000 ≤ q ∧ ms = q * mult ∧
      List.lookup key raw = some (JVal.num q)) := by
  unfold processIntervalField at h
  split at h
  · next heq =>
      simp at h
      exact Or.inl ⟨h.1.symm, h.2.symm, heq⟩
  · next heq =>
      simp at h
  · next q heq =>
      split at h
      · simp at h
      · next hq =>
          simp at h
          exact Or.inr ⟨q, h.1.symm, not_lt.mp hq, h.2.symm, heq⟩

/-- Raw value read by rawIntervalMs for one key. -/
theorem rawIntervalMs_expand (raw : RawConfig) :
    rawIntervalMs raw =
      (match List.lookup "seconds" raw with
        | some (JVal.num q) => q
        | _ => 0) * 1000 +
      (match List.lookup "minutes" raw with
        | some (JVal.num q) => q
        | _ => 0) * (60 * 1000) +
      (match List.lookup "hours" raw with
        | some (JVal.num q) => q
        | _ => 0) * (60 * 60 * 1000) +
      (match List.lookup "days" raw with
        | some (JVal.num q) => q
        | _ => 0) * (24 * 60 * 60 * 1000) := rfl

/-- Inversion of interval validation: success means every provided field
is at least 0.001, the accumulated total equals the raw numeric total,
and that total is positive. -/
theorem validateIntervalConfig_ok_inv (raw : RawConfig) (f : IntervalFields)
    (h : validateIntervalConfig raw = Except.ok f) :
    (∀ q, f.seconds = some q → 1 / 1000 ≤ q) ∧
    (∀ q, f.minutes = some q → 1 / 1000 ≤ q) ∧
    (∀ q, f.hours = some q → 1 / 1000 ≤ q) ∧
    (∀ q, f.days = some q → 1 / 1000 ≤ q) ∧
    intervalFieldsMs f = rawIntervalMs raw ∧
    0 < intervalFieldsMs f := by
  unfold validateIntervalConfig at h
  split at h
  · simp at h
  · split at h
    · simp at h
    · next s ms1 h1 =>
      split at h
      · simp at h
      · next m ms2 h2 =>
        split at h
        · simp at h
        · next hh ms3 h3 =>
          split at h
          · simp at h
          · next d ms4 h4 =>
            split at h
            · simp at h
            · next hpos =>
              simp at h
              have i1 := processIntervalField_ok_inv _ _ _ _ _ _ h1
              have i2 := processIntervalField_ok_inv _ _ _ _ _ _ h2
              have i3 := processIntervalField_ok_inv _ _ _ _ _ _ h3
              have i4 := processIntervalField_ok_inv _ _ _ _ _ _ h4
              have hms : intervalFieldsMs ⟨s, m, hh, d⟩
                  = ms1 + ms2 + ms3 + ms4 ∧
                  rawIntervalMs raw = ms1 + ms2 + ms3 + ms4 := by
                rw [rawIntervalMs_expand]
                unfold intervalFieldsMs
                rcases i1 with ⟨hs, hm1, hl1⟩ | ⟨q1, hs, hq1, hm1, hl1⟩ <;>
                  rcases i2 with ⟨hm, hm2, hl2⟩ | ⟨q2, hm, hq2, hm2, hl2⟩ <;>
                  rcases i3 with ⟨hhh, hm3, hl3⟩ | ⟨q3, hhh, hq3, hm3, hl3⟩ <;>
                  rcases i4 with ⟨hd, hm4, hl4⟩ | ⟨q4, hd, hq4, hm4, hl4⟩ <;>
                  subst hs <;> subst hm <;> subst hhh <;> subst hd <;>
                  rw [hl1, hl2, hl3, hl4] <;>
                  simp [hm1, hm2, hm3, hm4]
              rw [← h]
              refine ⟨?_, ?_, ?_, ?_, ?_, ?_⟩
              · intro q hq
                rcases i1 with ⟨hs, _, _⟩ | ⟨q1, hs, hq1, _, _⟩
                · rw [hs] at hq
                  cases hq
                · rw [hs] at hq
                  injection hq with hq
                  rw [← hq]
                  exact hq1
              · intro q hq
                rcases i2 with ⟨hs, _, _⟩ | ⟨q1, hs, hq1, _, _⟩
                · rw [hs] at hq
                  cases hq
                · rw [hs] at hq
                  injection hq with hq
                  rw [← hq]
                  exact hq1
              · intro q hq
                rcases i3 with ⟨hs, _, _⟩ | ⟨q1, hs, hq1, _, _⟩
                · rw [hs] at hq
                  cases hq
                · rw [hs] at hq
                  injection hq with hq
                  rw [← hq]
                  exact hq1
              · intro q hq
                rcases i4 with ⟨hs, _, _⟩ | ⟨q1, hs, hq1, _, _⟩
                · rw [hs] at hq
                  cases hq
                · rw [hs] at hq
                  injection hq with hq
                  rw [← hq]
                  exact hq1
              · rw [hms.1, hms.2]
              · rw [hms.1]
                exact lt_of_not_le hpos

/-- C6: interval validation fails on any config containing a key outside
the four allowed ones and on any config whose numeric fields do not sum
to a positive millisecond total; when it succeeds every provided field is
a positive number (at least 0.001) and the total is positive; and a
validation error propagates out of the create_task pipeline unchanged, so
no task is built and nothing is persisted. -/
theorem claim_C6_interval_validation (raw : RawConfig) :
    (∀ kv, kv ∈ raw → kv.1 ∉ allowedIntervalKeys →
      ∃ e, validateIntervalConfig raw = Except.error e) ∧
    (rawIntervalMs raw ≤ 0 →
      ∃ e, validateIntervalConfig raw = Except.error e) ∧
    (∀ f, validateIntervalConfig raw = Except.ok f →
      (∀ q, f.seconds = some q → 0 < q) ∧
      (∀ q, f.minutes = some q → 0 < q) ∧
      (∀ q, f.hours = some q → 0 < q) ∧
      (∀ q, f.days = some q → 0 < q) ∧
      0 < intervalFieldsMs f) ∧
    (∀ e, validateIntervalConfig raw = Except.error e →
      ∀ (cronNext : CronNext) (s : StoreState) (name : String)
        (ap : Option String) (newId : String) (now : Int),
        createTaskIntervalTool cronNext s name raw ap newId now
          = Except.error e) := by
  have third : ∀ f, validateIntervalConfig raw = Except.ok f →
      (∀ q, f.seconds = some q → 0 < q) ∧
      (∀ q, f.minutes = some q → 0 < q) ∧
      (∀ q, f.hours = some q → 0 < q) ∧
      (∀ q, f.days = some q → 0 < q) ∧
      0 < intervalFieldsMs f := by
    intro f hok
    obtain ⟨i1, i2, i3, i4, _, ipos⟩ := validateIntervalConfig_ok_inv raw f hok
    have hsmall : (0 : ℚ) < 1 / 1000 := by norm_num
    exact ⟨fun q hq => lt_of_lt_of_le hsmall (i1 q hq),
      fun q hq => lt_of_lt_of_le hsmall (i2 q hq),
      fun q hq => lt_of_lt_of_le hsmall (i3 q hq),
      fun q hq => lt_of_lt_of_le hsmall (i4 q hq), ipos⟩
  refine ⟨?_, ?_, third, ?_⟩
  · intro kv hmem hbad
    have hp : (fun kv : String × JVal =>
        !(allowedIntervalKeys.contains kv.1)) kv = true := by
      simp [hbad]
    cases hfind : raw.find?
        (fun kv => !(allowedIntervalKeys.contains kv.1)) with
    | none =>
        rw [List.find?_eq_none] at hfind
        exact absurd hp (hfind kv hmem)
    | some kv2 =>
        refine ⟨"Unknown interval option: " ++ kv2.1, ?_⟩
        unfold validateIntervalConfig
        rw [hfind]
  · intro hle
    cases hv : validateIntervalConfig raw with
    | error e => exact ⟨e, rfl⟩
    | ok f =>
        obtain ⟨_, _, _, _, heq, hpos⟩ :=
          validateIntervalConfig_ok_inv raw f hv
        rw [heq] at hpos
        exact absurd hpos (not_lt.mpr hle)
  · intro e he cronNext s name ap newId now
    unfold createTaskIntervalTool
    rw [he]

/-- Witness for C6: a config with an unknown key fails, and the empty
config (zero total duration) fails. -/
theorem claim_C6_interval_validation_witness :
    (∃ e, validateIntervalConfig [("bogus", JVal.num 1)]
      = Except.error e) ∧
    (∃ e, validateIntervalConfig ([] : RawConfig) = Except.error e) := by
  constructor
  · exact (claim_C6_interval_validation [("bogus", JVal.num 1)]).1
      ("bogus", JVal.num 1) (by simp) (by decide)
  · refine (claim_C6_interval_validation ([] : RawConfig)).2.1 ?_
    norm_num [rawIntervalMs, List.lookup]

/-! Store lemmas. -/

/-- Upserting a record with an attached history makes it the stored entry
for its id (first occurrence). -/
theorem findEntry_upsertStore_self_hist (s : StoreState) (t : TaskRecord)
    (h : List HistoryEntry) (ht : t.history = some h) :
    findEntry (upsertStore t s) t.id = some ⟨rowOf t, h⟩ := by
  induction s with
  | nil => simp [upsertStore, findEntry, ht]
  | cons e rest ih =>
      obtain ⟨k, st⟩ := e
      by_cases hk : k = t.id
      · subst hk
        simp [upsertStore, findEntry, ht]
      · simp [upsertStore, findEntry, hk, ih]

/-- Upserting does not affect entries of other ids. -/
theorem findEntry_upsertStore_ne (s : StoreState) (t : TaskRecord)
    (id : String) (hne : id ≠ t.id) :
    findEntry (upsertStore t s) id = findEntry s id := by
  induction s with
  | nil => simp [upsertStore, findEntry, Ne.symm hne]
  | cons e rest ih =>
      obtain ⟨k, st⟩ := e
      by_cases hk : k = t.id
      · subst hk
        simp [upsertStore, findEntry, Ne.symm hne]
      · by_cases hk2 : k = id
        · subst hk2
          simp [upsertStore, findEntry, hk]
        · simp [upsertStore, findEntry, hk, hk2, ih]

/-- Upsert is idempotent at the store-state level. -/
theorem upsertStore_idem (s : StoreState) (t : TaskRecord) :
    upsertStore t (upsertStore t s) = upsertStore t s := by
  induction s with
  | nil =>
      cases ht : t.history <;> simp [upsertStore, ht]
  | cons e rest ih =>
      obtain ⟨k, st⟩ := e
      by_cases hk : k = t.id
      · subst hk
        cases ht : t.history <;> simp [upsertStore, ht]
      · simp [upsertStore, hk, ih]

/-- Row resulting from the store-level clearHistory: last_run,
last_status and last_message nulled and updated_at stamped. -/
def clearedRow (r : TaskRecord) (now : Int) : TaskRecord :=
  { r with
    last_run := none
    last_status := none
    last_message := none
    updated_at := some now }

/-- Entry transformation of the store-level clearHistory at its id. -/
theorem clearHistoryStore_self (s : StoreState) (id : String) (now : Int) :
    findEntry (clearHistoryStore s id now) id
      = (findEntry s id).map (fun st => ⟨clearedRow st.row now, []⟩) := by
  unfold clearHistoryStore clearedRow
  induction s with
  | nil => rfl
  | cons e rest ih =>
      obtain ⟨k, st⟩ := e
      rw [List.map_cons]
      by_cases hk : k = id
      · subst hk
        simp [findEntry]
      · simp [findEntry, hk, ih]

/-- The store-level clearHistory does not affect other ids. -/
theorem clearHistoryStore_ne (s : StoreState) (id id2 : String) (now : Int)
    (hne : id2 ≠ id) :
    findEntry (clearHistoryStore s id now) id2 = findEntry s id2 := by
  unfold clearHistoryStore
  induction s with
  | nil => rfl
  | cons e rest ih =>
      obtain ⟨k, st⟩ := e
      rw [List.map_cons]
      by_cases hk : k = id
      · subst hk
        simp [findEntry, Ne.symm hne, ih]
      · by_cases hk2 : k = id2
        · subst hk2
          simp [findEntry, hk]
        · simp [findEntry, hk, hk2, ih]

/-- Entry transformation of updateStatus at its id when the patch is
nonempty. -/
theorem updateStatusStore_self (s : StoreState) (id : String)
    (p : StatusPatch) (now : Int) (hp : patchIsEmpty p = false) :
    findEntry (updateStatusStore s id p now) id
      = (findEntry s id).map (fun st =>
          ⟨applyStatusPatch st.row p now, st.hist⟩) := by
  unfold updateStatusStore
  rw [if_neg (by simp [hp])]
  induction s with
  | nil => rfl
  | cons e rest ih =>
      obtain ⟨k, st⟩ := e
      by_cases hk : k = id
      · subst hk
        simp [findEntry]
      · simp only [List.map_cons] at ih ⊢
        simp [findEntry, hk, ih]

/-- updateStatus does not affect other ids. -/
theorem updateStatusStore_ne (s : StoreState) (id id2 : String)
    (p : StatusPatch) (now : Int) (hne : id2 ≠ id) :
    findEntry (updateStatusStore s id p now) id2 = findEntry s id2 := by
  unfold updateStatusStore
  by_cases hp : patchIsEmpty p
  · rw [if_pos hp]
  · rw [if_neg hp]
    induction s with
    | nil => rfl
    | cons e rest ih =>
        obtain ⟨k, st⟩ := e
        by_cases hk : k = id
        · subst hk
          simp [findEntry, Ne.symm hne, ih]
        · by_cases hk2 : k = id2
          · subst hk2
            simp [findEntry, hk]
          · simp only [List.map_cons] at ih ⊢
            simp [findEntry, hk, hk2, ih]

/-- C7 (amended): updateStatus writes exactly the patch fields that are
present, stamps updated_at, and leaves every other column and every other
task untouched - WHENEVER at least one patch field is present.  An empty
patch returns early without touching the row, so updated_at is NOT
stamped in that case. -/
theorem claim_C7_update_status (s : StoreState) (id : String)
    (p : StatusPatch) (now : Int) :
    (patchIsEmpty p = true → updateStatusStore s id p now = s) ∧
    (patchIsEmpty p = false →
      findEntry (updateStatusStore s id p now) id
        = (findEntry s id).map (fun st =>
            ⟨applyStatusPatch st.row p now, st.hist⟩)) ∧
    (∀ id2, id2 ≠ id →
      findEntry (updateStatusStore s id p now) id2 = findEntry s id2) ∧
    (∀ r : TaskRecord,
      (applyStatusPatch r p now).updated_at = some now ∧
      (applyStatusPatch r p now).trigger_type = r.trigger_type ∧
      (applyStatusPatch r p now).trigger_config = r.trigger_config ∧
      (applyStatusPatch r p now).agent_prompt = r.agent_prompt ∧
      (applyStatusPatch r p now).enabled = r.enabled ∧
      (applyStatusPatch r p now).status = r.status ∧
      (applyStatusPatch r p now).created_at = r.created_at ∧
      (∀ v, p.last_run = some v →
        (applyStatusPatch r p now).last_run = some v) ∧
      (p.last_run = none →
        (applyStatusPatch r p now).last_run = r.last_run) ∧
      (∀ v, p.last_status = some v →
        (applyStatusPatch r p now).last_status = some v) ∧
      (p.last_status = none →
        (applyStatusPatch r p now).last_status = r.last_status) ∧
      (∀ v, p.last_message = some v →
        (applyStatusPatch r p now).last_message = some v) ∧
      (p.last_message = none →
        (applyStatusPatch r p now).last_message = r.last_message) ∧
      (∀ v, p.next_run = some v →
        (applyStatusPatch r p now).next_run = some v) ∧
      (p.next_run = none →
        (applyStatusPatch r p now).next_run = r.next_run)) := by
  refine ⟨?_, ?_, fun id2 h => updateStatusStore_ne s id id2 p now h, ?_⟩
  · intro hp
    simp [updateStatusStore, hp]
  · intro hp
    exact updateStatusStore_self s id p now hp
  · intro r
    refine ⟨rfl, rfl, rfl, rfl, rfl, rfl, rfl, ?_, ?_, ?_, ?_, ?_, ?_, ?_,
      ?_⟩ <;>
      first
        | (intro v hv; simp [applyStatusPatch, hv])
        | (intro hv; simp [applyStatusPatch, hv])

/-- Stored row with a stamped updated_at, used by C7. -/
def witStoredRow : TaskRecord := { witTaskInterval with updated_at := some 5 }

/-- One-task store used by C7 and C8. -/
def witStore : StoreState := [("t1", ⟨rowOf witStoredRow, []⟩)]

/-- Witness for C7: a patch carrying only last_run rewrites the row,
patching last_run and stamping updated_at. -/
theorem claim_C7_update_status_witness :
    findEntry (updateStatusStore witStore "t1" ⟨some 42, none, none, none⟩ 99)
        "t1"
      = (findEntry witStore "t1").map (fun st =>
          ⟨applyStatusPatch st.row ⟨some 42, none, none, none⟩ 99,
            st.hist⟩) :=
  (claim_C7_update_status witStore "t1" ⟨some 42, none, none, none⟩
    99).2.1 rfl

/-- Counterexample for C7 as frozen: the empty patch is a no-op; the
stored updated_at keeps its prior value 5 and is NOT set to the current
instant 99. -/
theorem claim_C7_counterexample :
    updateStatusStore witStore "t1" ⟨none, none, none, none⟩ 99 = witStore ∧
    (findEntry witStore "t1").map (fun st => st.row.updated_at)
      = some (some 5) ∧
    some (some (5 : ℤ)) ≠ some (some (99 : ℤ)) := by
  refine ⟨rfl, rfl, by decide⟩

/-- C8 (amended): the store-level clearHistory removes the history rows
of the id, nulls last_run, last_status and last_message, stamps
updated_at and leaves every other column and every other task unchanged.
The operation reachable from the clear_task_history tool is however
TaskScheduler.clearTaskHistory, which empties the history attachment,
clears last_status and last_message, stamps updated_at and upserts - it
LEAVES last_run at its prior value instead of nulling it, and preserves
every other field. -/
theorem claim_C8_clear_history (s : StoreState) (id : String) (now : Int) :
    (findEntry (clearHistoryStore s id now) id
        = (findEntry s id).map (fun st => ⟨clearedRow st.row now, []⟩)) ∧
    (∀ id2, id2 ≠ id →
      findEntry (clearHistoryStore s id now) id2 = findEntry s id2) ∧
    (∀ r : TaskRecord,
      (clearedRow r now).last_run = none ∧
      (clearedRow r now).last_status = none ∧
      (clearedRow r now).last_message = none ∧
      (clearedRow r now).updated_at = some now ∧
      (clearedRow r now).trigger_type = r.trigger_type ∧
      (clearedRow r now).trigger_config = r.trigger_config ∧
      (clearedRow r now).agent_prompt = r.agent_prompt ∧
      (clearedRow r now).enabled = r.enabled ∧
      (clearedRow r now).status = r.status ∧
      (clearedRow r now).created_at = r.created_at ∧
      (clearedRow r now).next_run = r.next_run) ∧
    (∀ st, findEntry s id = some st →
      ∃ t1, clearTaskHistorySched s id now
          = Except.ok (t1, upsertStore t1 s) ∧
        t1.history = some [] ∧
        t1.last_status = none ∧
        t1.last_message = none ∧
        t1.updated_at = some now ∧
        t1.last_run = st.row.last_run ∧
        t1.next_run = st.row.next_run ∧
        t1.status = st.row.status ∧
        t1.enabled = st.row.enabled ∧
        t1.trigger_type = st.row.trigger_type ∧
        t1.trigger_config = st.row.trigger_config ∧
        t1.created_at = st.row.created_at ∧
        t1.agent_prompt = st.row.agent_prompt ∧
        (st.row.id = id →
          findEntry (upsertStore t1 s) id = some ⟨rowOf t1, []⟩)) := by
  refine ⟨clearHistoryStore_self s id now,
    fun id2 h => clearHistoryStore_ne s id id2 now h, ?_, ?_⟩
  · intro r
    exact ⟨rfl, rfl, rfl, rfl, rfl, rfl, rfl, rfl, rfl, rfl, rfl⟩
  · intro st hst
    refine ⟨{ hydrateStored st with
        history := some []
        last_message := none
        last_status := none
        updated_at := some now }, ?_, rfl, rfl, rfl, rfl, rfl, rfl, rfl,
      rfl, rfl, rfl, rfl, rfl, ?_⟩
    · simp [clearTaskHistorySched, getStore, hst]
    · intro hid
      have hid2 : ({ hydrateStored st with
          history := some []
          last_message := none
          last_status := none
          updated_at := some now } : TaskRecord).id = id := hid
      rw [← hid2]
      exact findEntry_upsertStore_self_hist s _ [] rfl

/-- One-task store whose row has a non-null last_run, used by the C8
counterexample. -/
def witStoreLastRun : StoreState :=
  [("t1", ⟨{ rowOf witTaskInterval with last_run := some 7 }, []⟩)]

/-- Task returned by a successful clearTaskHistory call. -/
def clearResultTask (r : Except String (TaskRecord × StoreState)) :
    Option TaskRecord :=
  match r with
  | Except.ok pr => some pr.1
  | Except.error _ => none

/-- Counterexample for C8 as frozen: the operation reachable from the
clear_task_history tool does NOT leave last_run null; a prior last_run of
7 survives the call. -/
theorem claim_C8_counterexample :
    (clearResultTask (clearTaskHistorySched witStoreLastRun "t1" 99)).map
        TaskRecord.last_run = some (some 7) ∧
    some (some (7 : ℤ)) ≠ some (none : Option ℤ) := by
  refine ⟨rfl, by decide⟩

/-- C9: upsert is idempotent at the level of the whole store state (hence
observably through get and list), and an upsert carrying a history array
leaves exactly that sequence as the stored history rows of the id. -/
theorem claim_C9_upsert_idempotent (s : StoreState) (t : TaskRecord) :
    upsertStore t (upsertStore t s) = upsertStore t s ∧
    (∀ h, t.history = some h →
      findEntry (upsertStore t s) t.id = some ⟨rowOf t, h⟩) :=
  ⟨upsertStore_idem s t,
    fun h ht => findEntry_upsertStore_self_hist s t h ht⟩

/-- Witness for C9: upserting a task carrying twelve history entries into
the empty store stores exactly those rows. -/
theorem claim_C9_upsert_idempotent_witness :
    findEntry (upsertStore witTaskHist []) witTaskHist.id
      = some ⟨rowOf witTaskHist, witLongHistory⟩ :=
  (claim_C9_upsert_idempotent [] witTaskHist).2 witLongHistory rfl

/-- One step of the listTasks loop: normalise, collect, write back. -/
def normStep (c : CronNext) (now : Int)
    (acc : List TaskRecord × StoreState) (t : TaskRecord) :
    List TaskRecord × StoreState :=
  (acc.1 ++ [normaliseTask c t now],
    upsertStore (normaliseTask c t now) acc.2)

/-- listTasks is the fold of the normalise-and-write-back step over the
listed tasks. -/
theorem listTasksSched_eq_fold (c : CronNext) (s : StoreState) (now : Int) :
    listTasksSched c s now = (listStore s).foldl (normStep c now) ([], s) :=
  rfl

/-- Returned tasks of the fold: the accumulated list extended with the
normalisation of every folded task. -/
theorem foldl_normStep_fst (c : CronNext) (now : Int) :
    ∀ (ts : List TaskRecord) (acc : List TaskRecord × StoreState),
      (ts.foldl (normStep c now) acc).1
        = acc.1 ++ ts.map (fun t => normaliseTask c t now) := by
  intro ts
  induction ts with
  | nil => intro acc; simp
  | cons t ts ih =>
      intro acc
      rw [List.foldl_cons, ih]
      simp [normStep]

/-- Final store of the fold: the upserts of the normalised tasks applied
in order. -/
theorem foldl_normStep_snd (c : CronNext) (now : Int) :
    ∀ (ts : List TaskRecord) (acc : List TaskRecord × StoreState),
      (ts.foldl (normStep c now) acc).2
        = ts.foldl (fun st t => upsertStore (normaliseTask c t now) st)
            acc.2 := by
  intro ts
  induction ts with
  | nil => intro acc; rfl
  | cons t ts ih =>
      intro acc
      rw [List.foldl_cons, List.foldl_cons, ih]
      rfl

/-- Folding upserts of tasks whose ids differ from a given id leaves the
entry of that id unchanged. -/
theorem foldl_upserts_notmem (c : CronNext) (now : Int) (id : String) :
    ∀ (ts : List TaskRecord) (st : StoreState),
      (∀ t ∈ ts, t.id ≠ id) →
      findEntry
          (ts.foldl (fun st t => upsertStore (normaliseTask c t now) st) st)
          id
        = findEntry st id := by
  intro ts
  induction ts with
  | nil => intro st _; rfl
  | cons t ts ih =>
      intro st hne
      rw [List.foldl_cons, ih _ (fun t2 h2 => hne t2 (List.mem_cons_of_mem t h2))]
      refine findEntry_upsertStore_ne st _ id ?_
      rw [normaliseTask_id]
      exact fun h => hne t (List.mem_cons_self t ts) h.symm

/-- C10 (implicit): getTask and listTasks are reads with a write-back.
A successful getTask returns the normalisation of the hydrated record and
upserts it into the store, so the stored row afterwards is the normalised
record and the stored history rows are its clamped history; the
normalisation recomputes status by the normalization rules, truncates the
history to ten entries and recomputes next_run with the stored next_run
as previously planned, while keeping created_at and an already-present
updated_at.  listTasks does the same for every stored task (stated for
well-formed stores: distinct ids, row ids matching their keys). -/
theorem claim_C10_read_write_back (c : CronNext) (s : StoreState)
    (id : String) (now : Int) :
    (∀ st, findEntry s id = some st →
      getTaskSched c s id now
        = (some (normaliseTask c (hydrateStored st) now),
            upsertStore (normaliseTask c (hydrateStored st) now) s) ∧
      (st.row.id = id →
        findEntry (getTaskSched c s id now).2 id
          = some ⟨rowOf (normaliseTask c (hydrateStored st) now),
              (normaliseTask c (hydrateStored st) now).history.getD []⟩) ∧
      (normaliseTask c (hydrateStored st) now).created_at
        = st.row.created_at ∧
      (∀ v, st.row.updated_at = some v →
        (normaliseTask c (hydrateStored st) now).updated_at = some v) ∧
      (normaliseTask c (hydrateStored st) now).status
        = determineStatus (truncHistory (hydrateStored st)) now ∧
      (normaliseTask c (hydrateStored st) now).history
        = some ((sortHistDesc st.hist).take historyLimit) ∧
      (normaliseTask c (hydrateStored st) now).next_run
        = computeNextRun c
            { normaliseTask c (hydrateStored st) now with
                next_run := st.row.next_run } now) ∧
    ((s.map Prod.fst).Nodup → (∀ e ∈ s, e.2.row.id = e.1) →
      ∀ e ∈ s,
        normaliseTask c (hydrateStored e.2) now
          ∈ (listTasksSched c s now).1 ∧
        findEntry (listTasksSched c s now).2 e.1
          = some ⟨rowOf (normaliseTask c (hydrateStored e.2) now),
              (normaliseTask c (hydrateStored e.2) now).history.getD []⟩) := by
  constructor
  · intro st hst
    have hget : getTaskSched c s id now
        = (some (normaliseTask c (hydrateStored st) now),
            upsertStore (normaliseTask c (hydrateStored st) now) s) := by
      simp [getTaskSched, getStore, hst]
    have hhist : (normaliseTask c (hydrateStored st) now).history
        = some ((sortHistDesc st.hist).take historyLimit) := by
      rw [normaliseTask_history]
      rfl
    refine ⟨hget, ?_, ?_, ?_, normaliseTask_status c _ now, hhist, ?_⟩
    · intro hid
      rw [hget]
      have hidu : (normaliseTask c (hydrateStored st) now).id = id := by
        rw [normaliseTask_id]
        exact hid
      rw [← hidu]
      rw [findEntry_upsertStore_self_hist s _ _ hhist, hhist]
      rfl
    · rw [normaliseTask_created_at]
      rfl
    · intro v hv
      rw [normaliseTask_updated_at]
      have : (hydrateStored st).updated_at = some v := hv
      rw [this]
      rfl
    · rw [normaliseTask_next_run]
      rfl
  · intro hnd hwf e he
    have hperm : List.Perm (sortCreatedAsc s) s := List.perm_insertionSort _ s
    have hes : e ∈ sortCreatedAsc s := hperm.mem_iff.mpr he
    have hfst : (listTasksSched c s now).1
        = (listStore s).map (fun t => normaliseTask c t now) := by
      rw [listTasksSched_eq_fold, foldl_normStep_fst]
      simp
    have hsnd : (listTasksSched c s now).2
        = (listStore s).foldl
            (fun st t => upsertStore (normaliseTask c t now) st) s := by
      rw [listTasksSched_eq_fold, foldl_normStep_snd]
    constructor
    · rw [hfst]
      exact List.mem_map_of_mem _
        (List.mem_map_of_mem (fun e => hydrateStored e.2) hes)
    · obtain ⟨l1, l2, hdec⟩ := List.append_of_mem hes
      have hndS : ((sortCreatedAsc s).map Prod.fst).Nodup :=
        ((hperm.map Prod.fst).nodup_iff).mpr hnd
      rw [hdec, List.map_append, List.map_cons] at hndS
      have hnotin : e.1 ∉ l2.map Prod.fst :=
        (List.nodup_cons.mp (List.Nodup.of_append_right hndS)).1
      have hlist : listStore s
          = l1.map (fun e => hydrateStored e.2)
            ++ hydrateStored e.2 :: l2.map (fun e => hydrateStored e.2) := by
        unfold listStore
        rw [hdec, List.map_append, List.map_cons]
      rw [hsnd, hlist, List.foldl_append, List.foldl_cons]
      have hids : ∀ t ∈ l2.map (fun e => hydrateStored e.2), t.id ≠ e.1 := by
        intro t ht
        obtain ⟨x, hx, rfl⟩ := List.mem_map.mp ht
        have hxs : x ∈ s := by
          refine hperm.mem_iff.mp ?_
          rw [hdec]
          exact List.mem_append_right l1 (List.mem_cons_of_mem e hx)
        have : (hydrateStored x.2).id = x.1 := hwf x hxs
        rw [this]
        intro hxe
        exact hnotin (hxe ▸ List.mem_map_of_mem Prod.fst hx)
      rw [foldl_upserts_notmem c now e.1 _ _ hids]
      have hhist : (normaliseTask c (hydrateStored e.2) now).history
          = some ((sortHistDesc e.2.hist).take historyLimit) := by
        rw [normaliseTask_history]
        rfl
      have hidu : (normaliseTask c (hydrateStored e.2) now).id = e.1 := by
        rw [normaliseTask_id]
        exact hwf e he
      rw [← hidu]
      rw [findEntry_upsertStore_self_hist _ _ _ hhist, hhist]
      rfl

/-- Witness for C10 at a one-task store: getTask returns the normalised
record and writes it back, and listTasks returns the normalised record. -/
theorem claim_C10_read_write_back_witness :
    getTaskSched (fun _ _ => none) witStore "t1" 20
      = (some (normaliseTask (fun _ _ => none)
            (hydrateStored ⟨rowOf witStoredRow, []⟩) 20),
          upsertStore (normaliseTask (fun _ _ => none)
            (hydrateStored ⟨rowOf witStoredRow, []⟩) 20) witStore) ∧
    normaliseTask (fun _ _ => none) (hydrateStored ⟨rowOf witStoredRow, []⟩)
        20 ∈ (listTasksSched (fun _ _ => none) witStore 20).1 := by
  have h := claim_C10_read_write_back (fun _ _ => none) witStore "t1" 20
  refine ⟨(h.1 ⟨rowOf witStoredRow, []⟩ rfl).1, ?_⟩
  exact (h.2 (by decide) (by decide) ("t1", ⟨rowOf witStoredRow, []⟩)
    (by decide)).1

/-- Witness for C8: clearing the history of the stored task through the
tool-reachable operation yields a record whose last_status is cleared. -/
theorem claim_C8_clear_history_witness :
    (clearResultTask (clearTaskHistorySched witStore "t1" 99)).map
        TaskRecord.last_status = some none := by
  obtain ⟨t1, heq, hh, hls, hlm, hupd, _⟩ :=
    (claim_C8_clear_history witStore "t1" 99).2.2.2
      ⟨rowOf witStoredRow, []⟩ rfl
  simp [clearResultTask, heq, hls]
